import Mathlib

/-!
Verification of the two CGI scripts of this repository.

`cgi-1.py` (the spec's EnvironmentDumpHandler) prints a fixed HTML preamble,
one table row per environment variable (sorted, HTML-escaped), and a fixed
closing fragment.  `cgi-3.py` (the spec's LargeOutputHandler) prints fixed
boilerplate around 1000 generated paragraph lines.

Python's `print` appends one newline to its argument, so each script's
standard output is modelled as the concatenation of `arg ++ "\n"` over the
sequence of `print` calls (`render` below).  Environment snapshots are
modelled as association lists of (name, value) string pairs; the snapshot
comes from a Python `dict`, so names are assumed distinct where relevant.
-/

/-- Models Python's `html.escape(s, quote=True)` on a single character: the
characters `&`, `<`, `>`, `"`, `'` are replaced by their entity equivalents,
every other character is kept.  (CPython applies `str.replace` for `&` first
and then for the remaining four characters; since no replacement string
contains a character that a later `replace` call rewrites, the sequential
replacement is equivalent to this character-wise map.) -/
def htmlEscapeChar (c : Char) : List Char :=
  if c = '&' then "&amp;".data
  else if c = '<' then "&lt;".data
  else if c = '>' then "&gt;".data
  else if c = '"' then "&quot;".data
  else if c = '\'' then "&#x27;".data
  else [c]

/-- Character-list form of `html.escape`. -/
def escL (l : List Char) : List Char :=
  (l.map htmlEscapeChar).flatten

/-- Models Python's `html.escape(s)` (the source calls it with the default
`quote=True`). -/
def htmlEscape (s : String) : String :=
  ⟨escL s.data⟩

/-- The argument of the first `print` of `cgi-1.py`: the triple-quoted
preamble literal (it starts and ends with a newline). -/
def preambleText : String :=
  "\n<!DOCTYPE html>\n<html>\n<head>\n    <title>CGI Environment Dump</title>\n    <style>\n        body \x7b font-family: monospace; background: #f4f4f4; \x7d\n        table \x7b border-collapse: collapse; width: 100%; \x7d\n        th, td \x7b border: 1px solid #999; padding: 6px; \x7d\n        th \x7b background: #ddd; \x7d\n        tr:nth-child(even) \x7b background: #eee; \x7d\n    </style>\n</head>\n<body>\n<h1>CGI Environment Variables</h1>\n<table>\n<tr><th>Variable</th><th>Value</th></tr>\n"

/-- The argument of the last `print` of `cgi-1.py`: the closing triple-quoted
literal. -/
def closingText : String :=
  "\n</table>\n</body>\n</html>\n"

/-- The argument of the per-variable `print` of `cgi-1.py`: the two adjacent
f-strings `"<tr><td>{html.escape(key)}</td>" "<td>{html.escape(value)}</td></tr>"`. -/
def envRow (kv : String × String) : String :=
  "<tr><td>" ++ htmlEscape kv.1 ++ "</td><td>" ++ htmlEscape kv.2 ++ "</td></tr>"

/-- The order used by Python's `sorted(os.environ.items())`: lexicographic
comparison of (name, value) tuples, where strings compare lexicographically
by code point.  Comparison is stated on the underlying character lists (the
lexicographic order on `List Char`), which coincides with `String`'s order
(`String.lt_iff_toList_lt`) and computes inside the kernel. -/
def pairLe (a b : String × String) : Prop :=
  a.1.data < b.1.data ∨ (a.1 = b.1 ∧ a.2.data ≤ b.2.data)

instance : DecidableRel pairLe := fun _ _ =>
  decidable_of_iff (_ ∨ (_ ∧ _)) Iff.rfl

instance : IsTrans (String × String) pairLe where
  trans a b c hab hbc := by
    rcases hab with h1 | ⟨h1, h1v⟩ <;> rcases hbc with h2 | ⟨h2, h2v⟩
    · exact Or.inl (lt_trans h1 h2)
    · exact Or.inl (by rw [← h2]; exact h1)
    · exact Or.inl (by rw [h1]; exact h2)
    · exact Or.inr ⟨h1.trans h2, le_trans h1v h2v⟩

instance : IsTotal (String × String) pairLe where
  total a b := by
    rcases lt_trichotomy a.1.data b.1.data with h | h | h
    · exact Or.inl (Or.inl h)
    · rcases le_total a.2.data b.2.data with hv | hv
      · exact Or.inl (Or.inr ⟨String.ext h, hv⟩)
      · exact Or.inr (Or.inr ⟨(String.ext h).symm, hv⟩)
    · exact Or.inr (Or.inl h)

/-- Models `sorted(os.environ.items())`.  Python's `sorted` returns the unique
nondecreasing reordering of the items with respect to the total tuple order
(unique because the tuple order is antisymmetric on distinct pairs), so any
correct sorting function models it; we use insertion sort, which is structural
and hence computes inside the kernel. -/
def sortedEnv (env : List (String × String)) : List (String × String) :=
  env.insertionSort pairLe

/-- The data-row lines printed by the `for key, value in sorted(...)` loop. -/
def environmentDumpRows (env : List (String × String)) : List String :=
  (sortedEnv env).map envRow

/-- The arguments of the successive `print` calls of `cgi-1.py`. -/
def environmentDumpPrints (env : List (String × String)) : List String :=
  preambleText :: (environmentDumpRows env ++ [closingText])

/-- Standard output of a sequence of Python `print` calls: each argument
followed by the newline `print` appends. -/
def render : List String → String
  | [] => ""
  | s :: ss => s ++ "\n" ++ render ss

/-- Standard output of `cgi-1.py` (the EnvironmentDumpHandler), as a function
of the environment snapshot and the request body on stdin.  The script reads
`os.environ` and never reads stdin. -/
def environmentDumpHandler (env : List (String × String)) (_stdin : String) : String :=
  render (environmentDumpPrints env)

/-- The argument of the loop `print` of `cgi-3.py`:
`f"<p>Line {i}: This is a large CGI response test.</p>"`. -/
def paragraphLine (i : Nat) : String :=
  "<p>Line " ++ Nat.repr i ++ ": This is a large CGI response test.</p>"

/-- The arguments of the successive `print` calls of `cgi-3.py`. -/
def largeOutputPrints : List String :=
  ["<!DOCTYPE html>", "<html><body>", "<h1>Huge CGI Response</h1>"]
    ++ (List.range 1000).map paragraphLine ++ ["</body></html>"]

/-- Standard output of `cgi-3.py` (the LargeOutputHandler), as a function of
the environment snapshot and the request body on stdin.  The script reads
neither (the readers in the source are commented out). -/
def largeOutputHandler (_env : List (String × String)) (_stdin : String) : String :=
  render largeOutputPrints

/-! ### Generic facts about `render` -/

theorem render_append (xs ys : List String) :
    render (xs ++ ys) = render xs ++ render ys := by
  induction xs with
  | nil => simp [render]
  | cons s ss ih => simp [render, ih, String.append_assoc]

theorem render_length (ls : List String) :
    (render ls).length = (ls.map (fun s => s.length + 1)).sum := by
  induction ls with
  | nil => rfl
  | cons s ss ih =>
    simp only [render, String.length_append, ih, List.map_cons, List.sum_cons]
    have h1 : ("\n" : String).length = 1 := rfl
    omega

theorem mem_render (ls : List String) (c : Char) (hc : c ∈ (render ls).data) :
    c = '\n' ∨ ∃ s ∈ ls, c ∈ s.data := by
  induction ls with
  | nil => simp [render] at hc
  | cons s ss ih =>
    simp only [render, String.data_append, List.mem_append] at hc
    rcases hc with (h | h) | h
    · exact Or.inr ⟨s, List.mem_cons_self .., h⟩
    · left
      simpa using h
    · rcases ih h with h | ⟨t, ht, hct⟩
      · exact Or.inl h
      · exact Or.inr ⟨t, List.mem_cons_of_mem _ ht, hct⟩

/-! ### Decimal representation of `Nat` -/

/-- Value of a list of decimal digit characters (used only to invert
`Nat.repr` on the range the program uses). -/
def decValue (l : List Char) : Nat :=
  l.foldl (fun a c => 10 * a + (c.toNat - 48)) 0

set_option maxRecDepth 10000 in
theorem decValue_repr : ∀ i, i < 1000 → decValue (Nat.repr i).data = i := by decide

theorem mem_toDigitsCore_ten :
    ∀ (f n : Nat) (ds : List Char) (c : Char), c ∈ Nat.toDigitsCore 10 f n ds →
      c ∈ ds ∨ c ∈ "0123456789".data := by
  intro f
  induction f with
  | zero => intro n ds c hc; exact Or.inl hc
  | succ f ih =>
    intro n ds c hc
    have hd : ∀ m : Nat, m < 10 → Nat.digitChar m ∈ "0123456789".data := by decide
    have hmod : n % 10 < 10 := Nat.mod_lt _ (by omega)
    have hc2 : c ∈ (if n / 10 = 0 then Nat.digitChar (n % 10) :: ds
        else Nat.toDigitsCore 10 f (n / 10) (Nat.digitChar (n % 10) :: ds)) := hc
    clear hc
    split at hc2
    · rcases List.mem_cons.1 hc2 with h | h
      · exact Or.inr (h ▸ hd _ hmod)
      · exact Or.inl h
    · rcases ih _ _ _ hc2 with h | h
      · rcases List.mem_cons.1 h with h | h
        · exact Or.inr (h ▸ hd _ hmod)
        · exact Or.inl h
      · exact Or.inr h

theorem mem_repr (n : Nat) (c : Char) (hc : c ∈ (Nat.repr n).data) :
    c ∈ "0123456789".data := by
  have : c ∈ Nat.toDigitsCore 10 (n + 1) n [] := hc
  rcases mem_toDigitsCore_ten _ _ _ _ this with h | h
  · cases h
  · exact h

/-! ### Facts about the paragraph lines of `cgi-3.py` -/

theorem paragraphLine_data (i : Nat) :
    (paragraphLine i).data
      = "<p>Line ".data ++ ((Nat.repr i).data ++ ": This is a large CGI response test.</p>".data) := by
  simp [paragraphLine, String.data_append, List.append_assoc]

theorem paragraphLine_length (i : Nat) :
    (paragraphLine i).length = 48 + (Nat.repr i).length := by
  simp only [paragraphLine, String.length_append]
  have h1 : ("<p>Line " : String).length = 8 := rfl
  have h2 : (": This is a large CGI response test.</p>" : String).length = 40 := rfl
  omega

theorem paragraphLine_injOn (i j : Nat) (hi : i < 1000) (hj : j < 1000)
    (hne : i ≠ j) : paragraphLine i ≠ paragraphLine j := by
  intro h
  apply hne
  have hd := congrArg String.data h
  rw [paragraphLine_data, paragraphLine_data] at hd
  have h1 := List.append_cancel_left hd
  have h2 := List.append_cancel_right h1
  have h3 : Nat.repr i = Nat.repr j := by
    have := congrArg List.asString h2
    simpa [Nat.repr] using this
  calc i = decValue (Nat.repr i).data := (decValue_repr i hi).symm
    _ = decValue (Nat.repr j).data := by rw [h3]
    _ = j := decValue_repr j hj

/-! ### Claims about `cgi-3.py` (LargeOutputHandler) -/

/-- Claim C4: LargeOutputHandler consults no external input: any two
invocations (regardless of environment or stdin) produce byte-identical
output strings. -/
theorem claim_C4 (env₁ : List (String × String)) (stdin₁ : String)
    (env₂ : List (String × String)) (stdin₂ : String) :
    largeOutputHandler env₁ stdin₁ = largeOutputHandler env₂ stdin₂ := rfl

/-- The output of `cgi-3.py`, split into its opening boilerplate, paragraph
block and closing boilerplate. -/
theorem largeOutput_eq :
    render largeOutputPrints
      = "<!DOCTYPE html>\n<html><body>\n<h1>Huge CGI Response</h1>\n"
        ++ render ((List.range 1000).map paragraphLine) ++ "</body></html>\n" := by
  rw [largeOutputPrints, render_append, render_append]
  have h1 : render ["<!DOCTYPE html>", "<html><body>", "<h1>Huge CGI Response</h1>"]
      = "<!DOCTYPE html>\n<html><body>\n<h1>Huge CGI Response</h1>\n" := by decide
  have h2 : render ["</body></html>"] = "</body></html>\n" := by decide
  rw [h1, h2]

/-- Claim C6, counterexample: the output of LargeOutputHandler does not begin
with `<!DOCTYPE html><html><body><h1>Huge CGI Response</h1>` as one contiguous
text, because each `print` call terminates its argument with a newline (the
16th character of the output is a newline, not `<`). -/
theorem claim_C6_counterexample :
    ¬ ("<!DOCTYPE html><html><body><h1>Huge CGI Response</h1>".data
        <+: (largeOutputHandler [] "").data) := by
  rintro ⟨t, ht⟩
  have h15 : ("<!DOCTYPE html><html><body><h1>Huge CGI Response</h1>".data ++ t)[15]?
      = some '<' := by
    rw [List.getElem?_append_left (by decide)]
    decide
  have h15' : ((largeOutputHandler [] "").data)[15]? = some '\n' := by
    show ((render largeOutputPrints).data)[15]? = some '\n'
    rw [largeOutput_eq, String.data_append, String.data_append, List.append_assoc,
      List.getElem?_append_left (by decide)]
    decide
  rw [ht, h15'] at h15
  exact absurd h15 (by decide)

/-- Claim C6, amended: LargeOutputHandler's output begins with the opening
boilerplate as three newline-terminated lines
`<!DOCTYPE html>`, `<html><body>`, `<h1>Huge CGI Response</h1>` (not as one
contiguous text), immediately followed by the 1000 paragraph lines, and ends
with `</body></html>` followed by the newline of its `print`. -/
theorem claim_C6_amended (env : List (String × String)) (stdin : String) :
    largeOutputHandler env stdin
      = "<!DOCTYPE html>\n<html><body>\n<h1>Huge CGI Response</h1>\n"
        ++ render ((List.range 1000).map paragraphLine) ++ "</body></html>\n"
    ∧ "<!DOCTYPE html>\n<html><body>\n<h1>Huge CGI Response</h1>\n".data
        <+: (largeOutputHandler env stdin).data
    ∧ "</body></html>\n".data <:+ (largeOutputHandler env stdin).data := by
  have h : largeOutputHandler env stdin
      = "<!DOCTYPE html>\n<html><body>\n<h1>Huge CGI Response</h1>\n"
        ++ render ((List.range 1000).map paragraphLine) ++ "</body></html>\n" :=
    largeOutput_eq
  refine ⟨h, ?_, ?_⟩
  · rw [h, String.data_append, String.data_append, List.append_assoc]
    exact List.prefix_append _ _
  · rw [h, String.data_append]
    exact List.suffix_append _ _

set_option maxRecDepth 10000 in
/-- Claim C10: LargeOutputHandler's total output is exactly 51961 characters,
all of them ASCII (hence exactly 51961 bytes); there are 1004 `print`
statements, each line of a paragraph is 49 characters plus the decimal digit
count of its index, and the total is far below the "~5 MB" of the source
comment. -/
theorem claim_C10 (env : List (String × String)) (stdin : String) :
    (largeOutputHandler env stdin).length = 51961
    ∧ largeOutputPrints.length = 1004
    ∧ (∀ i, i < 1000 → (paragraphLine i).length + 1 = 49 + (Nat.repr i).length)
    ∧ (∀ c ∈ (largeOutputHandler env stdin).data, c.toNat < 128)
    ∧ 51961 < 5 * 1024 * 1024 := by
  refine ⟨?_, by decide, ?_, ?_, by norm_num⟩
  · show (render largeOutputPrints).length = 51961
    rw [render_length, largeOutputPrints, List.map_append, List.map_append,
      List.sum_append, List.sum_append, List.map_map]
    have h1 : ((["<!DOCTYPE html>", "<html><body>", "<h1>Huge CGI Response</h1>"] :
        List String).map (fun s => s.length + 1)).sum = 56 := by decide
    have h2 : ((["</body></html>"] : List String).map (fun s => s.length + 1)).sum = 15 := by
      decide
    have h3 : (List.range 1000).map ((fun s => s.length + 1) ∘ paragraphLine)
        = (List.range 1000).map (fun i => 49 + (Nat.repr i).length) := by
      apply List.map_congr_left
      intro i _
      simp only [Function.comp_apply, paragraphLine_length]
      omega
    have h4 : ((List.range 1000).map (fun i => 49 + (Nat.repr i).length)).sum = 51890 := by
      decide
    rw [h1, h2, h3, h4]
  · intro i _
    rw [paragraphLine_length]
    omega
  · intro c hc
    rcases mem_render _ _ hc with h | ⟨s, hs, hcs⟩
    · subst h; decide
    · have hascii : ∀ d ∈ "0123456789".data, Char.toNat d < 128 := by decide
      rw [largeOutputPrints] at hs
      rcases List.mem_append.1 hs with hs | hs
      · rcases List.mem_append.1 hs with hs | hs
        · rcases List.mem_cons.1 hs with rfl | hs
          · exact (by decide : ∀ d ∈ ("<!DOCTYPE html>" : String).data, Char.toNat d < 128) c hcs
          rcases List.mem_cons.1 hs with rfl | hs
          · exact (by decide : ∀ d ∈ ("<html><body>" : String).data, Char.toNat d < 128) c hcs
          rcases List.mem_cons.1 hs with rfl | hs
          · exact (by decide :
              ∀ d ∈ ("<h1>Huge CGI Response</h1>" : String).data, Char.toNat d < 128) c hcs
          · cases hs
        · rcases List.mem_map.1 hs with ⟨i, _, rfl⟩
          rw [paragraphLine_data] at hcs
          rcases List.mem_append.1 hcs with h | h
          · exact (by decide : ∀ d ∈ ("<p>Line " : String).data, Char.toNat d < 128) c h
          rcases List.mem_append.1 h with h | h
          · exact hascii c (mem_repr i c h)
          · exact (by decide :
              ∀ d ∈ (": This is a large CGI response test.</p>" : String).data,
                Char.toNat d < 128) c h
      · rcases List.mem_cons.1 hs with rfl | hs
        · exact (by decide : ∀ d ∈ ("</body></html>" : String).data, Char.toNat d < 128) c hcs
        · cases hs

/-- Claim C10, witness. -/
theorem claim_C10_witness :
    (7 : Nat) < 1000 ∧ (paragraphLine 7).length + 1 = 49 + (Nat.repr 7).length :=
  ⟨by decide, (claim_C10 [] "").2.2.1 7 (by decide)⟩

/-- Claim C3: LargeOutputHandler's printed lines contain exactly the 1000
paragraph lines `<p>Line {i}: This is a large CGI response test.</p>` for
i = 0..999: filtering the printed lines for the paragraph shape yields
exactly the lines for indices 0..999 in strictly ascending order, and
distinct indices give distinct lines. -/
theorem claim_C3 :
    largeOutputPrints.filter (fun s => decide ("<p>Line ".data <+: s.data))
      = (List.range 1000).map paragraphLine
    ∧ ((List.range 1000).map paragraphLine).length = 1000
    ∧ (List.range 1000).Pairwise (· < ·)
    ∧ (∀ i j, i < 1000 → j < 1000 → i ≠ j → paragraphLine i ≠ paragraphLine j) := by
  refine ⟨?_, by simp, List.pairwise_lt_range 1000, paragraphLine_injOn⟩
  rw [largeOutputPrints, List.filter_append, List.filter_append]
  have h1 : (["<!DOCTYPE html>", "<html><body>", "<h1>Huge CGI Response</h1>"] :
      List String).filter (fun s => decide ("<p>Line ".data <+: s.data)) = [] := by decide
  have h2 : (["</body></html>"] : List String).filter
      (fun s => decide ("<p>Line ".data <+: s.data)) = [] := by decide
  have h3 : ((List.range 1000).map paragraphLine).filter
      (fun s => decide ("<p>Line ".data <+: s.data)) = (List.range 1000).map paragraphLine := by
    rw [List.filter_eq_self]
    intro s hs
    rcases List.mem_map.1 hs with ⟨i, _, rfl⟩
    simp only [decide_eq_true_eq]
    rw [paragraphLine_data]
    exact List.prefix_append _ _
  rw [h1, h2, h3, List.append_nil, List.nil_append]

/-- Claim C3, witness. -/
theorem claim_C3_witness : paragraphLine 0 ≠ paragraphLine 1 :=
  claim_C3.2.2.2 0 1 (by decide) (by decide) (by decide)

/-! ### Claims C9, C1, C5 about `cgi-1.py` (EnvironmentDumpHandler) -/

/-- The output of `cgi-1.py`, split into preamble block, data-row block, and
closing block. -/
theorem environmentDump_eq (env : List (String × String)) :
    render (environmentDumpPrints env)
      = preambleText ++ "\n"
        ++ (render (environmentDumpRows env) ++ (closingText ++ "\n")) := by
  rw [environmentDumpPrints]
  show preambleText ++ "\n" ++ render (environmentDumpRows env ++ [closingText]) = _
  rw [render_append]
  have h1 : render [closingText] = closingText ++ "\n" := by
    show closingText ++ "\n" ++ "" = _
    rw [String.append_empty]
  rw [h1, String.append_assoc]

/-- Claim C9: for every environment snapshot, the first character
EnvironmentDumpHandler writes is a newline (the triple-quoted preamble
literal starts with one), and the output ends with a blank line after
`</html>` (the closing literal ends with a newline, and `print` adds
another). -/
theorem claim_C9 (env : List (String × String)) (stdin : String) :
    (environmentDumpHandler env stdin).data.head? = some '\n'
    ∧ "</html>\n\n".data <:+ (environmentDumpHandler env stdin).data := by
  have h : environmentDumpHandler env stdin
      = preambleText ++ "\n"
        ++ (render (environmentDumpRows env) ++ (closingText ++ "\n")) :=
    environmentDump_eq env
  constructor
  · rw [h, String.data_append, String.data_append, List.append_assoc,
      List.head?_append]
    rfl
  · rw [h]
    simp only [String.data_append]
    apply List.IsSuffix.trans
      (show ("</html>\n\n" : String).data <:+ closingText.data ++ "\n".data by decide)
    exact ⟨preambleText.data ++ "\n".data ++ (render (environmentDumpRows env)).data,
      by simp [List.append_assoc]⟩

/-- Sanity check corresponding to the spec's end-to-end scenario 1: the rows
of environment `[("Z", "2"), ("A", "1")]` come out in order A, Z. -/
theorem sortedEnv_example :
    sortedEnv [("Z", "2"), ("A", "1")] = [("A", "1"), ("Z", "2")] := by decide

/-- Claim C1: EnvironmentDumpHandler emits exactly one data row per
environment pair (in the shape fixed by `envRow`), the multiset of rows is
exactly the multiset of pairs' rows, and the rows appear sorted strictly
ascending by name (names are distinct because the snapshot is a `dict`);
`String`'s order is case-sensitive comparison by code point. -/
theorem claim_C1 (env : List (String × String)) (h : (env.map Prod.fst).Nodup) :
    (environmentDumpRows env).length = env.length
    ∧ List.Perm (environmentDumpRows env) (env.map envRow)
    ∧ environmentDumpRows env = (sortedEnv env).map envRow
    ∧ (sortedEnv env).Pairwise (fun a b => a.1 < b.1) := by
  have hperm : List.Perm (sortedEnv env) env := List.perm_insertionSort pairLe env
  refine ⟨?_, ?_, rfl, ?_⟩
  · rw [environmentDumpRows, List.length_map]
    exact hperm.length_eq
  · exact hperm.map envRow
  · have hs : (sortedEnv env).Pairwise pairLe := List.sorted_insertionSort pairLe env
    have hnd : ((sortedEnv env).map Prod.fst).Nodup := ((hperm.map Prod.fst).nodup_iff).2 h
    have hne : (sortedEnv env).Pairwise (fun a b => a.1 ≠ b.1) := List.pairwise_map.1 hnd
    refine (hs.and hne).imp ?_
    rintro a b ⟨hle, hab⟩
    rcases hle with h1 | ⟨h1, _⟩
    · exact String.lt_iff_toList_lt.mpr h1
    · exact absurd h1 hab

/-- Claim C1, witness at the spec's scenario-1 environment. -/
theorem claim_C1_witness :
    (([("Z", "2"), ("A", "1")] : List (String × String)).map Prod.fst).Nodup
    ∧ ((environmentDumpRows [("Z", "2"), ("A", "1")]).length
          = ([("Z", "2"), ("A", "1")] : List (String × String)).length
      ∧ List.Perm (environmentDumpRows [("Z", "2"), ("A", "1")])
          (([("Z", "2"), ("A", "1")] : List (String × String)).map envRow)
      ∧ environmentDumpRows [("Z", "2"), ("A", "1")]
          = (sortedEnv [("Z", "2"), ("A", "1")]).map envRow
      ∧ (sortedEnv [("Z", "2"), ("A", "1")]).Pairwise (fun a b => a.1 < b.1)) :=
  ⟨by decide, claim_C1 [("Z", "2"), ("A", "1")] (by decide)⟩

set_option maxRecDepth 10000 in
/-- Claim C5: with an empty environment the handler prints exactly the
preamble (whose last line is the fixed header row) and the closing fragment,
with zero data rows; and for any environment, the rows are exactly the rows
of the environment's pairs (nothing omitted, nothing truncated). -/
theorem claim_C5 :
    environmentDumpPrints [] = [preambleText, closingText]
    ∧ environmentDumpRows [] = []
    ∧ ("<tr><th>Variable</th><th>Value</th></tr>" ++ "\n").data <:+ preambleText.data
    ∧ (∀ env : List (String × String), List.Perm (environmentDumpRows env) (env.map envRow)) := by
  refine ⟨rfl, rfl, by decide, ?_⟩
  intro env
  exact (List.perm_insertionSort pairLe env).map envRow

/-! ### Claim C2: HTML escaping -/

/-- The five characters `html.escape` rewrites. -/
def specialChars : List Char := ['&', '<', '>', '"', '\'']

/-- Every character that occurs in one of the five entity replacements. -/
def entityChars : List Char := "&amp;&lt;&gt;&quot;&#x27;".data

/-- The five entity replacements. -/
def entityList : List (List Char) :=
  ["&amp;".data, "&lt;".data, "&gt;".data, "&quot;".data, "&#x27;".data]

/-- Every occurrence of `&` in `out` starts one of the five entities: the
ampersands in the escaped text are themselves entity-escaped, never raw. -/
def ampEscaped (out : List Char) : Prop :=
  ∀ l₁ l₂, out = l₁ ++ '&' :: l₂ → ∃ e ∈ entityList, e <+: '&' :: l₂

theorem specialChars_cases (c : Char) (hc : c ∈ specialChars) :
    c = '&' ∨ c = '<' ∨ c = '>' ∨ c = '"' ∨ c = '\'' := by
  simpa [specialChars] using hc

theorem htmlEscapeChar_of_not_special (d : Char) (h : d ∉ specialChars) :
    htmlEscapeChar d = [d] := by
  have h5 : ¬ (d = '&' ∨ d = '<' ∨ d = '>' ∨ d = '"' ∨ d = '\'') := by
    intro hor
    apply h
    rcases hor with rfl | rfl | rfl | rfl | rfl <;> decide
  push_neg at h5
  unfold htmlEscapeChar
  rw [if_neg h5.1, if_neg h5.2.1, if_neg h5.2.2.1, if_neg h5.2.2.2.1, if_neg h5.2.2.2.2]

theorem mem_htmlEscapeChar (d c : Char) (hc : c ∈ htmlEscapeChar d) :
    (d ∈ specialChars ∧ c ∈ entityChars) ∨ (c = d ∧ d ∉ specialChars) := by
  by_cases h : d ∈ specialChars
  · refine Or.inl ⟨h, ?_⟩
    rcases specialChars_cases d h with rfl | rfl | rfl | rfl | rfl
    · have hc2 : c ∈ ['&', 'a', 'm', 'p', ';'] := hc
      fin_cases hc2 <;> decide
    · have hc2 : c ∈ ['&', 'l', 't', ';'] := hc
      fin_cases hc2 <;> decide
    · have hc2 : c ∈ ['&', 'g', 't', ';'] := hc
      fin_cases hc2 <;> decide
    · have hc2 : c ∈ ['&', 'q', 'u', 'o', 't', ';'] := hc
      fin_cases hc2 <;> decide
    · have hc2 : c ∈ ['&', '#', 'x', '2', '7', ';'] := hc
      fin_cases hc2 <;> decide
  · rw [htmlEscapeChar_of_not_special d h] at hc
    exact Or.inr ⟨List.mem_singleton.1 hc, h⟩

theorem escL_cons (d : Char) (ds : List Char) :
    escL (d :: ds) = htmlEscapeChar d ++ escL ds := by
  simp [escL]

theorem mem_escL (l : List Char) (c : Char) (hc : c ∈ escL l) :
    c ∈ entityChars ∨ (c ∈ l ∧ c ∉ specialChars) := by
  unfold escL at hc
  rcases List.mem_flatten.1 hc with ⟨blk, hblk, hcb⟩
  rcases List.mem_map.1 hblk with ⟨d, hd, rfl⟩
  rcases mem_htmlEscapeChar d c hcb with ⟨_, h⟩ | ⟨rfl, h⟩
  · exact Or.inl h
  · exact Or.inr ⟨hd, h⟩

/-- The four markup-dangerous characters other than `&` never occur in the
escaped text at all. -/
theorem escL_not_mem (c : Char) (hc : c ∈ specialChars) (hne : c ≠ '&')
    (l : List Char) : c ∉ escL l := by
  intro h
  rcases mem_escL l c h with h1 | ⟨_, h1⟩
  · rcases specialChars_cases c hc with rfl | rfl | rfl | rfl | rfl
    · exact hne rfl
    all_goals exact absurd h1 (by decide)
  · exact h1 hc

/-- A character that occurs in no entity and survives in the escaped text
must come from the input text. -/
theorem escL_preserves (c : Char) (hc : c ∉ entityChars) (l : List Char)
    (h : c ∈ escL l) : c ∈ l := by
  rcases mem_escL l c h with h1 | ⟨h1, _⟩
  · exact absurd h1 hc
  · exact h1

/-- If a special character occurs in the input, its entity occurs in the
escaped output. -/
theorem entity_infix (l : List Char) (c : Char) (hc : c ∈ l) :
    htmlEscapeChar c <:+: escL l := by
  induction l with
  | nil => cases hc
  | cons d ds ih =>
    rcases List.mem_cons.1 hc with rfl | hd
    · exact ⟨[], escL ds, by rw [escL_cons]; rfl⟩
    · rcases ih hd with ⟨u, v, huv⟩
      exact ⟨htmlEscapeChar d ++ u, v, by
        rw [escL_cons, ← huv]
        simp [List.append_assoc]⟩

theorem amp_once (L l₁ l₂ : List Char) (hL : ∀ x ∈ L.tail, x ≠ '&')
    (h : L = l₁ ++ '&' :: l₂) : l₁ = [] := by
  cases l₁ with
  | nil => rfl
  | cons a t =>
    exfalso
    have hmem : '&' ∈ L.tail := by
      rw [h]
      simp
    exact hL _ hmem rfl

theorem escL_ampEscaped (l : List Char) : ampEscaped (escL l) := by
  induction l with
  | nil =>
    intro l₁ l₂ h
    rw [show escL [] = [] from rfl] at h
    exact absurd h.symm (by simp)
  | cons d ds ih =>
    intro l₁ l₂ h
    rw [escL_cons] at h
    rcases List.append_eq_append_iff.1 h with ⟨a, ha1, ha2⟩ | ⟨c', hc1, hc2⟩
    · exact ih a l₂ ha2
    · cases c' with
      | nil =>
        rw [List.append_nil] at hc1
        exact ih [] l₂ (by rw [hc2]; rfl)
      | cons e c'' =>
        have he : '&' = e ∧ l₂ = c'' ++ escL ds := by simpa using hc2
        by_cases hds : d ∈ specialChars
        · have hprops : htmlEscapeChar d ∈ entityList
              ∧ (∀ x ∈ (htmlEscapeChar d).tail, x ≠ '&') := by
            rcases specialChars_cases d hds with rfl | rfl | rfl | rfl | rfl <;>
              exact ⟨by decide, by decide⟩
          have hl1 : l₁ = [] := by
            apply amp_once (htmlEscapeChar d) l₁ c'' hprops.2
            rw [hc1, he.1]
          refine ⟨htmlEscapeChar d, hprops.1, escL ds, ?_⟩
          rw [hc1, hl1, List.nil_append, he.2, ← he.1]
          simp
        · rw [htmlEscapeChar_of_not_special d hds] at hc1
          cases l₁ with
          | nil =>
            simp only [List.nil_append] at hc1
            have : d = e := (List.cons.injEq .. ▸ hc1).1
            rw [this, ← he.1] at hds
            exact absurd (by decide : ('&' : Char) ∈ specialChars) hds
          | cons a t =>
            have := congrArg List.length hc1
            simp at this

/-- Claim C2: escaping is applied independently to the name cell and the
value cell of each row; whenever a name or value contains one of
`&ampersand;-class` characters `&`, `<`, `>`, `"`, `'`, its entity appears in
the corresponding escaped cell; the raw characters `<`, `>`, `"`, `'` never
appear in an escaped cell at all, and every `&` in an escaped cell starts one
of the five entities (so no special character ever appears unescaped); in
particular `html.escape` maps `<script>` to `&lt;script&gt;`. -/
theorem claim_C2 (k v : String) (c : Char) (hc : c ∈ specialChars) :
    envRow (k, v) = "<tr><td>" ++ htmlEscape k ++ "</td><td>" ++ htmlEscape v ++ "</td></tr>"
    ∧ (c ∈ k.data → htmlEscapeChar c <:+: (htmlEscape k).data)
    ∧ (c ∈ v.data → htmlEscapeChar c <:+: (htmlEscape v).data)
    ∧ (c ≠ '&' → c ∉ (htmlEscape k).data ∧ c ∉ (htmlEscape v).data)
    ∧ ampEscaped (htmlEscape k).data ∧ ampEscaped (htmlEscape v).data
    ∧ htmlEscape "<script>" = "&lt;script&gt;" := by
  refine ⟨rfl, fun h => entity_infix _ _ h, fun h => entity_infix _ _ h,
    fun hne => ⟨escL_not_mem c hc hne _, escL_not_mem c hc hne _⟩,
    escL_ampEscaped _, escL_ampEscaped _, by decide⟩

/-- Claim C2, witness at the spec's scenario-2 value. -/
theorem claim_C2_witness :
    ('<' ∈ specialChars)
    ∧ ('<' ∈ ("<script>" : String).data)
    ∧ htmlEscapeChar '<' <:+: (htmlEscape "<script>").data
    ∧ htmlEscape "<script>" = "&lt;script&gt;" :=
  ⟨by decide, by decide, (claim_C2 "X" "<script>" '<' (by decide)).2.2.1 (by decide),
    (claim_C2 "X" "<script>" '<' (by decide)).2.2.2.2.2.2⟩

/-! ### Claim C7: tag structure of the environment dump -/

/-- Tag scanner over raw characters: outside a tag (`none`) a `<` opens a
tag; inside a tag (`some acc`) a `>` closes it and emits the accumulated tag
text.  The environment dump contains no `<` or `>` outside real tags, so this
scanner recovers exactly its markup. -/
def scanTagsAux : Option (List Char) → List Char → List (List Char)
  | _, [] => []
  | none, c :: rest =>
    if c = '<' then scanTagsAux (some []) rest else scanTagsAux none rest
  | some acc, c :: rest =>
    if c = '>' then acc :: scanTagsAux none rest
    else scanTagsAux (some (acc ++ [c])) rest

/-- The scanner state after reading a chunk of characters. -/
def finalMode : Option (List Char) → List Char → Option (List Char)
  | m, [] => m
  | none, c :: rest => finalMode (if c = '<' then some [] else none) rest
  | some acc, c :: rest => finalMode (if c = '>' then none else some (acc ++ [c])) rest

/-- The tag tokens of a text. -/
def tagTokens (s : String) : List (List Char) :=
  scanTagsAux none s.data

/-- The name of a tag token: its text up to the first space. -/
def tagName (t : List Char) : List Char :=
  t.takeWhile (fun c => c ≠ ' ')

/-- Stack-based open/close matcher over tag tokens: declarations (`!…`) are
skipped, an open tag pushes its name, a close tag must match the top of the
stack.  `some stack` is the remaining stack; `none` means a mismatch. -/
def runStack : List (List Char) → List (List Char) → Option (List (List Char))
  | stack, [] => some stack
  | stack, t :: ts =>
    match t with
    | [] => none
    | c :: name =>
      if c = '!' then runStack stack ts
      else if c = '/' then
        match stack with
        | [] => none
        | s :: stack2 => if s = name then runStack stack2 ts else none
      else runStack (tagName (c :: name) :: stack) ts

theorem scanTagsAux_append (a b : List Char) : ∀ m,
    scanTagsAux m (a ++ b) = scanTagsAux m a ++ scanTagsAux (finalMode m a) b := by
  induction a with
  | nil => intro m; cases m <;> rfl
  | cons c cs ih =>
    intro m
    match m with
    | none =>
      by_cases h : c = '<' <;> simp [scanTagsAux, finalMode, h, ih]
    | some acc =>
      by_cases h : c = '>' <;> simp [scanTagsAux, finalMode, h, ih]

theorem finalMode_append (a b : List Char) : ∀ m,
    finalMode m (a ++ b) = finalMode (finalMode m a) b := by
  induction a with
  | nil => intro m; cases m <;> rfl
  | cons c cs ih =>
    intro m
    match m with
    | none =>
      by_cases h : c = '<' <;> simp [finalMode, h, ih]
    | some acc =>
      by_cases h : c = '>' <;> simp [finalMode, h, ih]

/-- A chunk with no `<` produces no tokens and leaves the scanner outside a
tag. -/
theorem scanTagsAux_of_no_lt (l : List Char) (h : '<' ∉ l) :
    scanTagsAux none l = [] ∧ finalMode none l = none := by
  induction l with
  | nil => exact ⟨rfl, rfl⟩
  | cons c cs ih =>
    have hc : c ≠ '<' := fun e => h (e ▸ List.mem_cons_self ..)
    have hcs : '<' ∉ cs := fun e => h (List.mem_cons_of_mem _ e)
    refine ⟨?_, ?_⟩
    · simp [scanTagsAux, hc, (ih hcs).1]
    · simp [finalMode, hc, (ih hcs).2]

theorem runStack_append (ts1 ts2 : List (List Char)) : ∀ stack,
    runStack stack (ts1 ++ ts2)
      = (runStack stack ts1).bind (fun s => runStack s ts2) := by
  induction ts1 with
  | nil => intro stack; rfl
  | cons t ts ih =>
    intro stack
    match t with
    | [] => rfl
    | c :: name =>
      by_cases h1 : c = '!'
      · simp [runStack, h1, ih]
      by_cases h2 : c = '/'
      · match stack with
        | [] => simp [runStack, h1, h2]
        | s :: stack2 =>
          by_cases h3 : s = name
          · simp [runStack, h1, h2, h3, ih]
          · simp [runStack, h1, h2, h3]
      · simp [runStack, h1, h2, ih]

theorem htmlEscape_data (s : String) : (htmlEscape s).data = escL s.data := rfl

theorem envRow_data (kv : String × String) :
    (envRow kv).data
      = "<tr><td>".data
          ++ (escL kv.1.data
            ++ ("</td><td>".data ++ (escL kv.2.data ++ "</td></tr>".data))) := by
  simp [envRow, htmlEscape_data, String.data_append, List.append_assoc]

theorem envRow_mode (kv : String × String) : finalMode none (envRow kv).data = none := by
  have hA : finalMode none ("<tr><td>" : String).data = none := rfl
  have hB : finalMode none ("</td><td>" : String).data = none := rfl
  have hC : finalMode none ("</td></tr>" : String).data = none := rfl
  have hk := (scanTagsAux_of_no_lt (escL kv.1.data)
    (escL_not_mem '<' (by decide) (by decide) _)).2
  have hv := (scanTagsAux_of_no_lt (escL kv.2.data)
    (escL_not_mem '<' (by decide) (by decide) _)).2
  rw [envRow_data, finalMode_append, hA, finalMode_append, hk,
    finalMode_append, hB, finalMode_append, hv, hC]

theorem envRow_scan (kv : String × String) :
    scanTagsAux none (envRow kv).data
      = ["tr".data, "td".data, "/td".data, "td".data, "/td".data, "/tr".data] := by
  have hA : finalMode none ("<tr><td>" : String).data = none := rfl
  have hB : finalMode none ("</td><td>" : String).data = none := rfl
  have sA : scanTagsAux none ("<tr><td>" : String).data = ["tr".data, "td".data] := rfl
  have sB : scanTagsAux none ("</td><td>" : String).data = ["/td".data, "td".data] := rfl
  have sC : scanTagsAux none ("</td></tr>" : String).data = ["/td".data, "/tr".data] := rfl
  have hk := scanTagsAux_of_no_lt (escL kv.1.data)
    (escL_not_mem '<' (by decide) (by decide) _)
  have hv := scanTagsAux_of_no_lt (escL kv.2.data)
    (escL_not_mem '<' (by decide) (by decide) _)
  rw [envRow_data, scanTagsAux_append, hA, scanTagsAux_append, hk.1, hk.2,
    scanTagsAux_append, hB, scanTagsAux_append, hv.1, hv.2, sA, sB, sC]
  rfl

/-- Tokenising the rendered output of newline-terminated prints is
tokenising each printed string, provided every print leaves the scanner
outside a tag. -/
theorem scanTags_render (ls : List String) (h : ∀ s ∈ ls, finalMode none s.data = none) :
    scanTagsAux none (render ls).data
      = (ls.map (fun s => scanTagsAux none s.data)).flatten := by
  induction ls with
  | nil => rfl
  | cons s ss ih =>
    have hd : (render (s :: ss)).data = s.data ++ ('\n' :: (render ss).data) := by
      show ((s ++ "\n") ++ render ss).data = _
      rw [String.data_append, String.data_append]
      simp
    rw [hd, scanTagsAux_append, h s (List.mem_cons_self ..)]
    have hnl : scanTagsAux none ('\n' :: (render ss).data)
        = scanTagsAux none (render ss).data := by
      simp [scanTagsAux]
    rw [hnl, ih (fun t ht => h t (List.mem_cons_of_mem _ ht))]
    simp

theorem runStack_rowTokens (rows : List (String × String)) : ∀ S,
    runStack S ((rows.map (fun kv => scanTagsAux none (envRow kv).data)).flatten)
      = some S := by
  induction rows with
  | nil => intro S; rfl
  | cons kv rest ih =>
    intro S
    rw [List.map_cons, List.flatten_cons, runStack_append, envRow_scan]
    have h6 : runStack S ["tr".data, "td".data, "/td".data, "td".data, "/td".data, "/tr".data]
        = some S := rfl
    rw [h6]
    exact ih S

set_option maxRecDepth 100000 in
theorem envDump_tokens (env : List (String × String)) (stdin : String) :
    tagTokens (environmentDumpHandler env stdin)
      = scanTagsAux none preambleText.data
        ++ (((sortedEnv env).map (fun kv => scanTagsAux none (envRow kv).data)).flatten
            ++ scanTagsAux none closingText.data) := by
  show scanTagsAux none (render (environmentDumpPrints env)).data = _
  rw [scanTags_render]
  · rw [environmentDumpPrints, environmentDumpRows]
    simp only [List.map_cons, List.map_append, List.map_map, List.flatten_cons,
      List.flatten_append, List.flatten_nil, List.append_nil, List.map_nil]
    rfl
  · intro s hs
    rw [environmentDumpPrints] at hs
    rcases List.mem_cons.1 hs with rfl | hs
    · decide
    rcases List.mem_append.1 hs with hs | hs
    · rw [environmentDumpRows] at hs
      rcases List.mem_map.1 hs with ⟨kv, _, rfl⟩
      exact envRow_mode kv
    · have := List.mem_singleton.1 hs
      subst this
      decide

/-- The tag names the environment dump opens (the header's `th` cells and the
rows' `td` cells included). -/
def openTagNames : List (List Char) :=
  ["html".data, "head".data, "style".data, "title".data, "body".data,
   "h1".data, "table".data, "tr".data, "th".data, "td".data]

set_option maxRecDepth 100000 in
/-- Claim C7: for every environment snapshot, the emitted document is
open/close-tag balanced: running the tag tokens through a matching stack
ends with an empty stack, the token stream ends with `</table>`, `</body>`,
`</html>` in that order, and every token is the DOCTYPE declaration, an open
tag named html/head/style/title/body/h1/table/tr/th/td, or a close tag of
one of those names. -/
theorem claim_C7 (env : List (String × String)) (stdin : String) :
    runStack [] (tagTokens (environmentDumpHandler env stdin)) = some []
    ∧ ["/table".data, "/body".data, "/html".data]
        <:+ tagTokens (environmentDumpHandler env stdin)
    ∧ ∀ t ∈ tagTokens (environmentDumpHandler env stdin),
        t = "!DOCTYPE html".data ∨ tagName t ∈ openTagNames
        ∨ ∃ u ∈ openTagNames, t = '/' :: u := by
  have htok := envDump_tokens env stdin
  have hpre : scanTagsAux none preambleText.data
      = ["!DOCTYPE html".data, "html".data, "head".data, "title".data, "/title".data,
         "style".data, "/style".data, "/head".data, "body".data, "h1".data, "/h1".data,
         "table".data, "tr".data, "th".data, "/th".data, "th".data, "/th".data,
         "/tr".data] := by decide
  have hclose : scanTagsAux none closingText.data
      = ["/table".data, "/body".data, "/html".data] := by decide
  rw [htok, hpre, hclose]
  refine ⟨?_, ?_, ?_⟩
  · rw [runStack_append]
    have h1 : runStack []
        ["!DOCTYPE html".data, "html".data, "head".data, "title".data, "/title".data,
         "style".data, "/style".data, "/head".data, "body".data, "h1".data, "/h1".data,
         "table".data, "tr".data, "th".data, "/th".data, "th".data, "/th".data,
         "/tr".data]
        = some ["table".data, "body".data, "html".data] := by decide
    rw [h1]
    show runStack ["table".data, "body".data, "html".data] _ = some []
    rw [runStack_append, runStack_rowTokens]
    decide
  · exact ⟨_ ++ _, by rw [List.append_assoc]⟩
  · intro t ht
    rcases List.mem_append.1 ht with ht | ht
    · fin_cases ht <;> decide
    rcases List.mem_append.1 ht with ht | ht
    · rcases List.mem_flatten.1 ht with ⟨blk, hblk, htb⟩
      rcases List.mem_map.1 hblk with ⟨kv, _, rfl⟩
      rw [envRow_scan] at htb
      fin_cases htb <;> decide
    · fin_cases ht <;> decide

/-! ### Claim C8: header lines -/

/-- Split a text into its newline-separated lines (a trailing newline yields
a final empty line). -/
def splitLines : List Char → List (List Char)
  | [] => [[]]
  | c :: cs =>
    if c = '\n' then [] :: splitLines cs
    else (c :: (splitLines cs).headI) :: (splitLines cs).tail

theorem splitLines_ne_nil (l : List Char) : splitLines l ≠ [] := by
  cases l with
  | nil => simp [splitLines]
  | cons c cs =>
    by_cases h : c = '\n' <;> simp [splitLines, h]

theorem splitLines_append (a b : List Char) (h : '\n' ∉ a) :
    splitLines (a ++ '\n' :: b) = a :: splitLines b := by
  induction a with
  | nil => simp [splitLines]
  | cons c cs ih =>
    have hc : c ≠ '\n' := fun e => h (e ▸ List.mem_cons_self ..)
    have hcs : '\n' ∉ cs := fun e => h (List.mem_cons_of_mem _ e)
    simp [splitLines, hc, ih hcs]

/-- Splitting the output of newline-free prints followed by a tail `t`. -/
theorem splitLines_render (ls : List String) (t : List Char)
    (h : ∀ s ∈ ls, '\n' ∉ s.data) :
    splitLines ((render ls).data ++ t) = ls.map String.data ++ splitLines t := by
  induction ls with
  | nil => simp [render]
  | cons s ss ih =>
    have hd : (render (s :: ss)).data ++ t = s.data ++ ('\n' :: ((render ss).data ++ t)) := by
      show (((s ++ "\n") ++ render ss)).data ++ t = _
      rw [String.data_append, String.data_append]
      simp
    rw [hd, splitLines_append _ _ (h s (List.mem_cons_self ..)),
      ih (fun u hu => h u (List.mem_cons_of_mem _ hu))]
    simp

/-- Splitting a block of newline-terminated newline-free segments followed by
a tail `t`. -/
theorem splitLines_joinlines (ps : List (List Char)) (t : List Char)
    (h : ∀ p ∈ ps, '\n' ∉ p) :
    splitLines ((ps.map (fun p => p ++ ['\n'])).flatten ++ t) = ps ++ splitLines t := by
  induction ps with
  | nil => simp
  | cons p ps ih =>
    rw [List.map_cons, List.flatten_cons]
    have hp : p ++ ['\n'] ++ ((ps.map (fun p => p ++ ['\n'])).flatten ++ t)
        = p ++ '\n' :: ((ps.map (fun p => p ++ ['\n'])).flatten ++ t) := by
      simp
    rw [List.append_assoc, hp, splitLines_append _ _ (h p (List.mem_cons_self ..)),
      ih (fun u hu => h u (List.mem_cons_of_mem _ hu))]
    rfl

/-- The start of an HTTP `Content-Type` header line. -/
def contentTypePrefix : List Char := "Content-Type:".data

theorem not_ct_nil : ¬ contentTypePrefix <+: ([] : List Char) := by
  rintro ⟨t, ht⟩
  simp [contentTypePrefix] at ht

theorem not_ct_of_head_lt (l : List Char) (h : l.head? = some '<') :
    ¬ contentTypePrefix <+: l := by
  rintro ⟨t, ht⟩
  have h2 : (contentTypePrefix ++ t).head? = some 'C' := rfl
  rw [ht, h] at h2
  exact absurd h2 (by decide)

set_option maxRecDepth 400000 in
/-- Claim C8, counterexample: an environment value may embed a newline, and
`html.escape` leaves newlines alone, so a crafted value makes one output line
of EnvironmentDumpHandler a `Content-Type` header line. -/
theorem claim_C8_counterexample :
    ∃ l ∈ splitLines
        (environmentDumpHandler [("X", "\nContent-Type: text/html\n")] "").data,
      contentTypePrefix <+: l := by decide

/-- The newline-separated segments of the preamble print (its leading newline
gives a first empty line, and the newline `print` appends gives a final empty
segment). -/
def preambleLineList : List (List Char) :=
  [[], "<!DOCTYPE html>".data, "<html>".data, "<head>".data,
   "    <title>CGI Environment Dump</title>".data, "    <style>".data,
   "        body \x7b font-family: monospace; background: #f4f4f4; \x7d".data,
   "        table \x7b border-collapse: collapse; width: 100%; \x7d".data,
   "        th, td \x7b border: 1px solid #999; padding: 6px; \x7d".data,
   "        th \x7b background: #ddd; \x7d".data,
   "        tr:nth-child(even) \x7b background: #eee; \x7d".data,
   "    </style>".data, "</head>".data, "<body>".data,
   "<h1>CGI Environment Variables</h1>".data, "<table>".data,
   "<tr><th>Variable</th><th>Value</th></tr>".data, []]

theorem largeOutputPrints_no_newline : ∀ s ∈ largeOutputPrints, '\n' ∉ s.data := by
  intro s hs
  rw [largeOutputPrints] at hs
  rcases List.mem_append.1 hs with hs | hs
  · rcases List.mem_append.1 hs with hs | hs
    · fin_cases hs <;> decide
    · rcases List.mem_map.1 hs with ⟨i, _, rfl⟩
      rw [paragraphLine_data]
      intro hmem
      rcases List.mem_append.1 hmem with h | h
      · exact absurd h (by decide)
      rcases List.mem_append.1 h with h | h
      · exact absurd (mem_repr i '\n' h) (by decide)
      · exact absurd h (by decide)
  · fin_cases hs
    decide

theorem largeOutputPrints_head : ∀ s ∈ largeOutputPrints, s.data.head? = some '<' := by
  intro s hs
  rw [largeOutputPrints] at hs
  rcases List.mem_append.1 hs with hs | hs
  · rcases List.mem_append.1 hs with hs | hs
    · fin_cases hs <;> decide
    · rcases List.mem_map.1 hs with ⟨i, _, rfl⟩
      rw [paragraphLine_data]
      rfl
  · fin_cases hs
    decide

set_option maxRecDepth 400000 in
/-- Claim C8, amended: LargeOutputHandler's output never contains a
`Content-Type` header line; EnvironmentDumpHandler's output never contains
one provided no environment name or value embeds a newline (the raw claim
fails for newline-embedding values, see the counterexample). -/
theorem claim_C8_amended :
    (∀ (env : List (String × String)) (stdin : String),
      ∀ l ∈ splitLines (largeOutputHandler env stdin).data,
        ¬ contentTypePrefix <+: l)
    ∧ (∀ (env : List (String × String)) (stdin : String),
        (∀ kv ∈ env, '\n' ∉ (kv : String × String).1.data ∧ '\n' ∉ kv.2.data) →
        ∀ l ∈ splitLines (environmentDumpHandler env stdin).data,
          ¬ contentTypePrefix <+: l) := by
  constructor
  · intro env stdin l hl
    have hsplit : splitLines (render largeOutputPrints).data
        = largeOutputPrints.map String.data ++ [[]] := by
      have h := splitLines_render largeOutputPrints [] largeOutputPrints_no_newline
      rw [List.append_nil] at h
      exact h
    have hl2 : l ∈ largeOutputPrints.map String.data ++ [[]] := by
      rw [← hsplit]
      exact hl
    rcases List.mem_append.1 hl2 with h | h
    · rcases List.mem_map.1 h with ⟨s, hs, rfl⟩
      exact not_ct_of_head_lt _ (largeOutputPrints_head s hs)
    · rw [List.mem_singleton.1 h]
      exact not_ct_nil
  · intro env stdin henv l hl
    have hrows : ∀ s ∈ environmentDumpRows env, '\n' ∉ s.data := by
      intro s hs
      rw [environmentDumpRows] at hs
      rcases List.mem_map.1 hs with ⟨kv, hkv, rfl⟩
      have hmem : kv ∈ env := (List.perm_insertionSort pairLe env).subset hkv
      rw [envRow_data]
      intro hin
      rcases List.mem_append.1 hin with h | h
      · exact absurd h (by decide)
      rcases List.mem_append.1 h with h | h
      · exact (henv kv hmem).1 (escL_preserves '\n' (by decide) _ h)
      rcases List.mem_append.1 h with h | h
      · exact absurd h (by decide)
      rcases List.mem_append.1 h with h | h
      · exact (henv kv hmem).2 (escL_preserves '\n' (by decide) _ h)
      · exact absurd h (by decide)
    have hdata : (environmentDumpHandler env stdin).data
        = preambleText.data
          ++ ('\n' :: ((render (environmentDumpRows env)).data
            ++ (closingText.data ++ ['\n']))) := by
      show (render (environmentDumpPrints env)).data = _
      rw [environmentDump_eq]
      simp [String.data_append]
    have hps : ((preambleLineList.map (fun p => p ++ ['\n'])).flatten)
        = preambleText.data ++ ['\n'] := by decide
    have key : splitLines (environmentDumpHandler env stdin).data
        = preambleLineList
          ++ ((environmentDumpRows env).map String.data
            ++ splitLines (closingText.data ++ ['\n'])) := by
      rw [hdata]
      have hre : preambleText.data
            ++ ('\n' :: ((render (environmentDumpRows env)).data
              ++ (closingText.data ++ ['\n'])))
          = (preambleLineList.map (fun p => p ++ ['\n'])).flatten
            ++ ((render (environmentDumpRows env)).data
              ++ (closingText.data ++ ['\n'])) := by
        rw [hps]
        simp
      rw [hre, splitLines_joinlines _ _ (by decide),
        splitLines_render _ _ hrows]
    have hclose : splitLines (closingText.data ++ ['\n'])
        = [[], "</table>".data, "</body>".data, "</html>".data, [], []] := by decide
    rw [key, hclose] at hl
    rcases List.mem_append.1 hl with h | h
    · fin_cases h <;> decide
    rcases List.mem_append.1 h with h | h
    · rcases List.mem_map.1 h with ⟨s, hs, rfl⟩
      have hhead : s.data.head? = some '<' := by
        rw [environmentDumpRows] at hs
        rcases List.mem_map.1 hs with ⟨kv, _, rfl⟩
        rw [envRow_data]
        rfl
      exact not_ct_of_head_lt _ hhead
    · fin_cases h <;> decide

set_option maxRecDepth 400000 in
/-- Claim C8, witness. -/
theorem claim_C8_amended_witness :
    ¬ contentTypePrefix <+: ("<table>" : String).data :=
  claim_C8_amended.2 [] "" (by simp) ("<table>" : String).data (by decide)
